import Mathlib

/-!
Verification of the chess-analytics record parser and classifiers
(`analyze_chess_games.py`). The Python source is shallowly embedded:
lines and tag values are `List Char`, the per-line parser loop becomes a
fold over an explicit state, regular-expression scans become recursive
scanners with the same left-to-right, advance-by-one semantics as
`re.match` / `re.findall`, and Python `int(...)` becomes an
`Option Int` parser. Character classes model CPython's behaviour on
ASCII input (the repository's data is ASCII).
-/

namespace ChessAnalytics

/-- Python whitespace (`str.strip`, regex `\s`), ASCII model. -/
def pySpace (c : Char) : Bool :=
  c = ' ' || c = '\t' || c = '\n' || c = '\r' || c = '\x0b' || c = '\x0c'

/-- Regex word character `\w`, ASCII model: letters, digits, underscore. -/
def isWordChar (c : Char) : Bool :=
  c.isAlphanum || c = '_'

/-- `p` is a leading segment of `s` (Python `s.startswith(p)` is `lStarts p s`). -/
def lStarts : List Char → List Char → Bool
  | [], _ => true
  | _ :: _, [] => false
  | p :: ps, c :: cs => p = c && lStarts ps cs

/-- `pat` occurs contiguously inside `s` (Python `pat in s`). -/
def lContains (pat : List Char) : List Char → Bool
  | [] => lStarts pat []
  | c :: cs => lStarts pat (c :: cs) || lContains pat cs

/-- Python `str.strip()`: drop whitespace from both ends. -/
def strip (s : List Char) : List Char :=
  ((s.dropWhile pySpace).reverse.dropWhile pySpace).reverse

/-- Python `str.lower()`, ASCII model. -/
def toLowerL (s : List Char) : List Char :=
  s.map Char.toLower

/-- Numeric value of a digit string (`int` on a run of ASCII digits). -/
def digitsVal (ds : List Char) : Nat :=
  ds.foldl (fun a c => a * 10 + (c.toNat - 48)) 0

/-- Longest prefix `p` of `s` with `s = p ++ '"' :: ']' :: t`: the greedy
backtracking of `(.*)"\]` in `re.match`, which binds the group up to the
LAST `"]` pair in the remainder of the line. -/
def findLastQB : List Char → Option (List Char)
  | [] => none
  | c :: rest =>
    match findLastQB rest with
    | some p => some (c :: p)
    | none =>
      if c = '"' && rest.head? = some ']' then some [] else none

/-- `re.match(r'\[(\w+)\s+"(.*)"\]', line)`: anchored at the start only.
Returns the key (group 1) and value (group 2) on success. `\w+` and `\s+`
take maximal runs (no successful backtracking exists for them here), and
`(.*)` is greedy, stopping at the last `"]` occurrence. -/
def tagMatch (line : List Char) : Option (List Char × List Char) :=
  match line with
  | '[' :: rest =>
    let key := rest.takeWhile isWordChar
    let afterKey := rest.dropWhile isWordChar
    if key = [] then none
    else
      let ws := afterKey.takeWhile pySpace
      let afterWs := afterKey.dropWhile pySpace
      if ws = [] then none
      else
        match afterWs with
        | '"' :: body =>
          match findLastQB body with
          | some value => some (key, value)
          | none => none
        | _ => none
  | _ => none

/-- Python `line.startswith("[") and line.endswith("]")`. -/
def bracketShaped (s : List Char) : Bool :=
  match s.head?, s.getLast? with
  | some a, some b => a = '[' && b = ']'
  | _, _ => false

/-- `headers[key] = value` on an insertion-ordered dict: overwrite in place
when the key exists, append otherwise. -/
def insertTag (hs : List (List Char × List Char)) (k v : List Char) :
    List (List Char × List Char) :=
  if hs.any (fun p => p.1 = k) then
    hs.map (fun p => if p.1 = k then (k, v) else p)
  else hs ++ [(k, v)]

/-- `headers.get(key)`: the value stored for `key`, if any. -/
def lookupTag (hs : List (List Char × List Char)) (k : List Char) :
    Option (List Char) :=
  (hs.find? (fun p => p.1 = k)).map (fun p => p.2)

/-- The mutable locals of `parse_pgn`'s loop: `headers`, `moves_text`,
`in_moves`. -/
structure PState where
  headers : List (List Char × List Char)
  movesText : List Char
  inMoves : Bool
deriving DecidableEq, Repr

/-- Initial state of the `parse_pgn` loop. -/
def initPState : PState := ⟨[], [], false⟩

/-- One iteration of the `for line in f` loop in `parse_pgn`. -/
def stepLine (st : PState) (rawLine : List Char) : PState :=
  let line := strip rawLine
  if bracketShaped line then
    match tagMatch line with
    | some (k, v) => { st with headers := insertTag st.headers k v }
    | none => st
  else if line = [] then
    if st.headers ≠ [] then { st with inMoves := true } else st
  else if st.inMoves then
    { st with movesText := st.movesText ++ ' ' :: line }
  else st

/-- The whole `for line in f` loop of `parse_pgn` over a raw block. -/
def parseLines (block : List (List Char)) : PState :=
  block.foldl stepLine initPState

/-- Dropping a while-prefix never lengthens a list (termination measure
for the movetext scanner). -/
theorem dropWhile_len_le {α : Type} (p : α → Bool) (l : List α) :
    (l.dropWhile p).length ≤ l.length := by
  induction l with
  | nil => simp
  | cons a t ih =>
    rw [List.dropWhile_cons]
    by_cases h : p a = true
    · simp only [h, if_pos]
      exact Nat.le_succ_of_le ih
    · simp [h]

/-- One attempt of `re.findall(r'(\d+)\.\s', ...)` at a position whose
first character is `c` and remainder is `rest`: on a digit, take the
maximal digit run (`\d+` admits no successful shorter backtracking,
since a shorter run is followed by a digit, not `'.'`), require `'.'`
and one whitespace character; return the captured value and the text
after the consumed match, or `none` when the position does not match. -/
def scanStep (c : Char) (rest : List Char) : Option (Nat × List Char) :=
  if c.isDigit then
    match rest.dropWhile Char.isDigit with
    | '.' :: w :: t =>
      if pySpace w then some (digitsVal (c :: rest.takeWhile Char.isDigit), t) else none
    | _ => none
  else none

/-- Fuelled movetext scanner: at each position try `scanStep`; on success
emit the value and continue after the match (`re.findall` matches do not
overlap), on failure advance one character. The fuel only bounds the
recursion depth and is irrelevant once it covers the input length
(`scanMovesF_fuel`). -/
def scanMovesF : Nat → List Char → List Nat
  | _, [] => []
  | 0, _ :: _ => []
  | fuel + 1, c :: rest =>
    match scanStep c rest with
    | some (v, t) => v :: scanMovesF fuel t
    | none => scanMovesF fuel rest

/-- `re.findall(r'(\d+)\.\s', moves_text)`, as numbers. -/
def scanMoves (s : List Char) : List Nat := scanMovesF s.length s

/-- A successful match consumes at least the period and the whitespace
character beyond its tail. -/
theorem scanStep_tail_len {c : Char} {rest t : List Char} {v : Nat}
    (h : scanStep c rest = some (v, t)) : t.length + 2 ≤ rest.length := by
  unfold scanStep at h
  split at h
  · split at h
    · rename_i w2 t2 hd
      split at h
      · simp only [Option.some.injEq, Prod.mk.injEq] at h
        obtain ⟨-, ht⟩ := h
        subst ht
        have hlen := dropWhile_len_le Char.isDigit rest
        rw [hd] at hlen
        simp only [List.length_cons] at hlen
        omega
      · exact absurd h (by simp)
    · exact absurd h (by simp)
  · exact absurd h (by simp)

/-- Any sufficient fuel computes the same scan. -/
theorem scanMovesF_fuel : ∀ (f1 f2 : Nat) (s : List Char),
    s.length ≤ f1 → s.length ≤ f2 → scanMovesF f1 s = scanMovesF f2 s := by
  intro f1
  induction f1 with
  | zero =>
    intro f2 s h1 _
    have hs : s = [] := List.eq_nil_of_length_eq_zero (Nat.le_zero.mp h1)
    subst hs
    cases f2 <;> rfl
  | succ f1 ih =>
    intro f2 s h1 h2
    cases s with
    | nil => cases f2 <;> rfl
    | cons c rest =>
      cases f2 with
      | zero => simp at h2
      | succ f2 =>
        simp only [List.length_cons, Nat.succ_le_succ_iff] at h1 h2
        simp only [scanMovesF]
        cases hst : scanStep c rest with
        | none => exact ih f2 rest h1 h2
        | some p =>
          obtain ⟨v, t⟩ := p
          have hlen := scanStep_tail_len hst
          show v :: scanMovesF f1 t = v :: scanMovesF f2 t
          rw [ih f2 t (by omega) (by omega)]

/-- Unfolding `scanMoves` one position at a time: matching position. -/
theorem scanMoves_cons_some {c : Char} {rest t : List Char} {v : Nat}
    (h : scanStep c rest = some (v, t)) :
    scanMoves (c :: rest) = v :: scanMoves t := by
  have hlen := scanStep_tail_len h
  show scanMovesF (c :: rest).length (c :: rest) = v :: scanMovesF t.length t
  simp only [List.length_cons, scanMovesF, h]
  rw [scanMovesF_fuel rest.length t.length t (by omega) (by omega)]

/-- Unfolding `scanMoves` one position at a time: non-matching position. -/
theorem scanMoves_cons_none {c : Char} {rest : List Char}
    (h : scanStep c rest = none) :
    scanMoves (c :: rest) = scanMoves rest := by
  show scanMovesF (c :: rest).length (c :: rest) = scanMovesF rest.length rest
  simp only [List.length_cons, scanMovesF, h]

/-- `move_count = int(move_numbers[-1]) if move_numbers else 0`. -/
def moveCountOf (movesText : List Char) : Nat :=
  ((scanMoves movesText).getLast?).getD 0

/-- `parse_pgn`: headers and move count of one raw block. -/
def parse_pgn (block : List (List Char)) : List (List Char × List Char) × Nat :=
  let st := parseLines block
  (st.headers, moveCountOf st.movesText)

/-- `ECO_OPENINGS`: the catalog in its literal insertion order (a Python
dict literal with pairwise-distinct keys). -/
def ECO_OPENINGS : List (List Char × String) :=
  [("A00".toList, "Uncommon Opening"), ("A01".toList, "Nimzo-Larsen Attack"),
   ("A02".toList, "Bird's Opening"),
   ("A04".toList, "Reti Opening"), ("A10".toList, "English Opening"),
   ("A20".toList, "English Opening"),
   ("A28".toList, "English Opening: Four Knights"), ("A40".toList, "Queen's Pawn Game"),
   ("A45".toList, "Trompowsky Attack"),
   ("A46".toList, "Indian Game"), ("A48".toList, "London System"),
   ("B00".toList, "Uncommon King's Pawn Opening"), ("B01".toList, "Scandinavian Defense"),
   ("B02".toList, "Alekhine's Defense"), ("B07".toList, "Pirc Defense"),
   ("B10".toList, "Caro-Kann Defense"),
   ("B12".toList, "Caro-Kann Defense"), ("B20".toList, "Sicilian Defense"),
   ("B21".toList, "Sicilian: Smith-Morra Gambit"),
   ("B22".toList, "Sicilian: Alapin"), ("B27".toList, "Sicilian Defense"),
   ("B30".toList, "Sicilian Defense"),
   ("B40".toList, "Sicilian Defense"), ("B44".toList, "Sicilian: Taimanov"),
   ("B50".toList, "Sicilian Defense"), ("B90".toList, "Sicilian: Najdorf"),
   ("C00".toList, "French Defense"), ("C02".toList, "French: Advance Variation"),
   ("C20".toList, "King's Pawn Game"), ("C21".toList, "Center Game"),
   ("C23".toList, "Bishop's Opening"),
   ("C25".toList, "Vienna Game"), ("C28".toList, "Vienna Game"),
   ("C40".toList, "King's Knight Opening"), ("C42".toList, "Petrov's Defense"),
   ("C44".toList, "Scotch Game"),
   ("C45".toList, "Scotch Game"), ("C46".toList, "Three Knights Game"),
   ("C47".toList, "Four Knights Game"),
   ("C50".toList, "Italian Game"), ("C55".toList, "Italian Game: Two Knights"),
   ("C60".toList, "Ruy Lopez"), ("C65".toList, "Ruy Lopez: Berlin Defense"),
   ("D00".toList, "Queen's Pawn Game"), ("D02".toList, "London System"),
   ("D06".toList, "Queen's Gambit"),
   ("D10".toList, "Slav Defense"), ("D11".toList, "Slav Defense"),
   ("D20".toList, "Queen's Gambit Accepted"),
   ("D23".toList, "Queen's Gambit Accepted"), ("D30".toList, "Queen's Gambit Declined"),
   ("D31".toList, "Queen's Gambit Declined"), ("D35".toList, "Queen's Gambit Declined"),
   ("D37".toList, "Queen's Gambit Declined"), ("D55".toList, "Queen's Gambit Declined"),
   ("E00".toList, "Indian Defense"), ("E04".toList, "Catalan Opening"),
   ("E10".toList, "Indian Defense"), ("E20".toList, "Nimzo-Indian Defense"),
   ("E24".toList, "Nimzo-Indian Defense"),
   ("E60".toList, "King's Indian Defense"), ("E70".toList, "King's Indian Defense")]

/-- `classify_game_length` from the source, over Python integers. -/
def classify_game_length (move_count : Int) : String :=
  if move_count < 20 then "Quick"
  else if move_count ≤ 40 then "Medium"
  else "Long"

/-- `get_opening_name` from the source: `None`/empty gives "Unknown",
exact dict key gives its name, otherwise two prefix-shrinking passes
(`eco_code[:2]` then `eco_code[:1]`) each scanning the catalog in
insertion order and returning the first name whose key starts with the
prefix, and finally "Unknown". -/
def get_opening_name (eco_code : Option (List Char)) : String :=
  match eco_code with
  | none => "Unknown"
  | some ec =>
    if ec = [] then "Unknown"
    else
      match ECO_OPENINGS.find? (fun e => e.1 = ec) with
      | some e => e.2
      | none =>
        match ECO_OPENINGS.find? (fun e => lStarts (ec.take 2) e.1) with
        | some e => e.2
        | none =>
          match ECO_OPENINGS.find? (fun e => lStarts (ec.take 1) e.1) with
          | some e => e.2
          | none => "Unknown"

/-- `classify_loss_quality` from the source. -/
def classify_loss_quality (folder : String) (move_count : Int) : String :=
  if folder ≠ "loss" then "N/A"
  else if move_count < 15 then "Quick Loss"
  else if move_count < 30 then "Standard Loss"
  else "Well-Fought Loss"

/-- `classify_termination` from the source: the keyword if-chain over the
lower-cased text, with `None`/empty short-circuited to "Unknown". -/
def classify_termination (termination : Option (List Char)) : String :=
  match termination with
  | none => "Unknown"
  | some s =>
    if s = [] then "Unknown"
    else
      let tl := toLowerL s
      if lContains "checkmate".toList tl then "Checkmate"
      else if lContains "resignation".toList tl then "Resignation"
      else if lContains "timeout".toList tl then "Timeout"
      else if lContains "abandoned".toList tl then "Abandoned"
      else if lContains "agreement".toList tl then "Draw by Agreement"
      else if lContains "repetition".toList tl then "Draw by Repetition"
      else if lContains "stalemate".toList tl then "Stalemate"
      else if lContains "insufficient".toList tl then "Insufficient Material"
      else "Other"

/-- Validator for CPython's `int(str)` digit part: digits with single
underscores allowed only between digits (`digit ('_'? digit)*`). -/
def validDigitsU : List Char → Bool
  | [] => false
  | [c] => c.isDigit
  | c :: '_' :: rest => c.isDigit && validDigitsU rest
  | c :: d :: rest => c.isDigit && validDigitsU (d :: rest)

/-- CPython `int(str)`: strip surrounding whitespace, optional sign, then
an underscore-grouped digit run; `none` models `ValueError`. ASCII model. -/
def pyIntOpt (s : List Char) : Option Int :=
  let t := strip s
  match t with
  | '+' :: rest =>
    if validDigitsU rest then some (Int.ofNat (digitsVal (rest.filter (fun c => c ≠ '_'))))
    else none
  | '-' :: rest =>
    if validDigitsU rest then some (-(Int.ofNat (digitsVal (rest.filter (fun c => c ≠ '_')))))
    else none
  | _ =>
    if validDigitsU t then some (Int.ofNat (digitsVal (t.filter (fun c => c ≠ '_'))))
    else none

/-- `int(headers.get("WhiteElo", 0))`: a missing tag is the integer
default `0` (which cannot fail); a present tag goes through `int(str)`. -/
def eloVal (tag : Option (List Char)) : Option Int :=
  match tag with
  | none => some 0
  | some s => pyIntOpt s

/-- The `try`/`except ValueError` rating computation of `main`: if either
Elo fails to parse the differential is `0`, otherwise it is the
opponent's rating minus the user's own. -/
def deriveRatingDiff (whiteElo blackElo : Option (List Char)) (color_played : String) : Int :=
  match eloVal whiteElo, eloVal blackElo with
  | some w, some b => if color_played = "White" then b - w else w - b
  | _, _ => 0

/-- `main`'s color resolution: "White" iff the White tag (defaulting to
the empty string) equals the username case-insensitively. -/
def deriveColorPlayed (headers : List (List Char × List Char)) (username : List Char) : String :=
  if toLowerL ((lookupTag headers "White".toList).getD []) = toLowerL username then "White"
  else "Black"

/-- The derived analytics fields of one output row of `main`. -/
structure GameRecord where
  colorPlayed : String
  ratingDiff : Int
  moveCount : Nat
  gameLength : String
  openingName : String
  lossQuality : String
  terminationType : String
deriving DecidableEq, Repr

/-- The per-file body of `main`'s loop: parse the block, then derive the
classified fields exactly as the source does. -/
def analyzeBlock (username : List Char) (folder : String) (block : List (List Char)) :
    GameRecord :=
  let parsed := parse_pgn block
  let headers := parsed.1
  let move_count := parsed.2
  let color := deriveColorPlayed headers username
  { colorPlayed := color
    ratingDiff := deriveRatingDiff (lookupTag headers "WhiteElo".toList)
      (lookupTag headers "BlackElo".toList) color
    moveCount := move_count
    gameLength := classify_game_length (move_count : Int)
    openingName := get_opening_name (lookupTag headers "ECO".toList)
    lossQuality := classify_loss_quality folder (move_count : Int)
    terminationType := classify_termination (lookupTag headers "Termination".toList) }

/-! ## Specification-side definitions

These follow the wording of the specification (priority keyword list,
insertion-ordered catalog lookup) and are compared with the definitions
translated from the source. -/

/-- The termination keyword priority list of the spec, in its fixed
order, each paired with the category it selects. -/
def termKeywords : List (List Char × String) :=
  [("checkmate".toList, "Checkmate"), ("resignation".toList, "Resignation"),
   ("timeout".toList, "Timeout"), ("abandoned".toList, "Abandoned"),
   ("agreement".toList, "Draw by Agreement"), ("repetition".toList, "Draw by Repetition"),
   ("stalemate".toList, "Stalemate"), ("insufficient".toList, "Insufficient Material")]

/-- First keyword of the priority list contained in the lower-cased
text, if any (spec: "tested in the fixed priority order, first match
wins"). -/
def firstKeyword (tl : List Char) : List (List Char × String) → Option String
  | [] => none
  | kw :: rest => if lContains kw.1 tl then some kw.2 else firstKeyword tl rest

/-- Spec wording of the termination classifier: absent/empty input is
"Unknown", otherwise the first matching keyword's category, else
"Other". -/
def specTermination (termination : Option (List Char)) : String :=
  match termination with
  | none => "Unknown"
  | some s =>
    if s = [] then "Unknown"
    else
      match firstKeyword (toLowerL s) termKeywords with
      | some cat => cat
      | none => "Other"

/-- Spec wording of the opening resolver: empty/absent input is
"Unknown"; an exact catalog key returns that key's name; otherwise the
first entry in catalog insertion order whose key starts with the input's
first two characters, failing that its first character, failing that
"Unknown". -/
def specOpeningName (eco_code : Option (List Char)) : String :=
  match eco_code with
  | none => "Unknown"
  | some ec =>
    if ec = [] then "Unknown"
    else
      match List.lookup ec ECO_OPENINGS with
      | some name => name
      | none =>
        match (ECO_OPENINGS.find? (fun e => lStarts (ec.take 2) e.1)).map (fun e => e.2) with
        | some name => name
        | none =>
          match (ECO_OPENINGS.find? (fun e => lStarts (ec.take 1) e.1)).map (fun e => e.2) with
          | some name => name
          | none => "Unknown"

/-- Finding the first entry with a given key and projecting its value is
an insertion-ordered association lookup. -/
theorem find?_map_eq_lookup (ec : List Char) (l : List (List Char × String)) :
    (l.find? (fun e => e.1 = ec)).map (fun e => e.2) = List.lookup ec l := by
  induction l with
  | nil => rfl
  | cons a t ih =>
    obtain ⟨k, v⟩ := a
    by_cases h : k = ec
    · simp_all [List.find?, List.lookup]
    · have h2 : (ec == k) = false := by
        simp only [beq_eq_false_iff_ne, ne_eq]
        exact fun e => h e.symm
      have h3 : decide (k = ec) = false := decide_eq_false h
      simp only [List.find?, List.lookup, h2, h3]
      exact ih

/-- The source's if-chain equals the spec's priority-list scan. -/
theorem classify_termination_eq_spec (t : Option (List Char)) :
    classify_termination t = specTermination t := by
  cases t with
  | none => rfl
  | some s =>
    by_cases h0 : s = []
    · simp [classify_termination, specTermination, h0]
    · simp only [classify_termination, specTermination, firstKeyword, termKeywords, if_neg h0]
      by_cases h1 : lContains "checkmate".toList (toLowerL s) = true
      · simp only [if_pos h1]
      · simp only [if_neg h1]
        by_cases h2 : lContains "resignation".toList (toLowerL s) = true
        · simp only [if_pos h2]
        · simp only [if_neg h2]
          by_cases h3 : lContains "timeout".toList (toLowerL s) = true
          · simp only [if_pos h3]
          · simp only [if_neg h3]
            by_cases h4 : lContains "abandoned".toList (toLowerL s) = true
            · simp only [if_pos h4]
            · simp only [if_neg h4]
              by_cases h5 : lContains "agreement".toList (toLowerL s) = true
              · simp only [if_pos h5]
              · simp only [if_neg h5]
                by_cases h6 : lContains "repetition".toList (toLowerL s) = true
                · simp only [if_pos h6]
                · simp only [if_neg h6]
                  by_cases h7 : lContains "stalemate".toList (toLowerL s) = true
                  · simp only [if_pos h7]
                  · simp only [if_neg h7]
                    by_cases h8 : lContains "insufficient".toList (toLowerL s) = true
                    · simp only [if_pos h8]
                    · simp only [if_neg h8]

/-- The source's opening resolver equals the spec's description. -/
theorem get_opening_name_eq_spec (eco : Option (List Char)) :
    get_opening_name eco = specOpeningName eco := by
  cases eco with
  | none => rfl
  | some ec =>
    by_cases h0 : ec = []
    · simp [get_opening_name, specOpeningName, h0]
    · have hl := find?_map_eq_lookup ec ECO_OPENINGS
      simp only [get_opening_name, specOpeningName]
      rw [if_neg h0, if_neg h0, ← hl]
      cases ECO_OPENINGS.find? (fun e => e.1 = ec) with
      | some e => rfl
      | none =>
        cases ECO_OPENINGS.find? (fun e => lStarts (ec.take 2) e.1) with
        | some e => rfl
        | none =>
          cases ECO_OPENINGS.find? (fun e => lStarts (ec.take 1) e.1) with
          | some e => rfl
          | none => rfl

/-! ## Claim theorems -/

/-- C1 (counterexample): the claim asserts that "White resigned the
match" classifies as "Resignation", but the classifier looks for the
substring "resignation", which the lower-cased text does not contain
("resigned" is not "resignation"), so it falls through every keyword and
returns "Other". -/
theorem c1_counterexample :
    classify_termination (some "White resigned the match".toList) = "Other"
    ∧ classify_termination (some "White resigned the match".toList) ≠ "Resignation" := by
  constructor
  · decide
  · decide

/-- C1 (amended): "Game drawn by repetition" classifies as "Draw by
Repetition"; "White resigned the match" classifies as "Other" (its text
contains "resigned" but not the keyword "resignation"); an empty or
absent termination input classifies as "Unknown". -/
theorem c1_termination_examples :
    classify_termination (some "Game drawn by repetition".toList) = "Draw by Repetition"
    ∧ classify_termination (some "White resigned the match".toList) = "Other"
    ∧ classify_termination none = "Unknown"
    ∧ classify_termination (some "".toList) = "Unknown" := by
  refine ⟨by decide, by decide, rfl, by decide⟩

/-- C2: the opening resolver returns "Unknown" on empty or absent input,
the catalog name on an exact key, and otherwise the first entry in
catalog insertion order matching the two-character and then the
one-character prefix, else "Unknown" (stated as equality with the
spec-worded resolver `specOpeningName`); in particular "B10" resolves to
"Caro-Kann Defense", "B99" to "Sicilian: Najdorf", and "Z99" to
"Unknown". -/
theorem c2_opening_resolver :
    (∀ eco, get_opening_name eco = specOpeningName eco)
    ∧ get_opening_name none = "Unknown"
    ∧ get_opening_name (some []) = "Unknown"
    ∧ get_opening_name (some "B10".toList) = "Caro-Kann Defense"
    ∧ get_opening_name (some "B99".toList) = "Sicilian: Najdorf"
    ∧ get_opening_name (some "Z99".toList) = "Unknown" := by
  exact ⟨get_opening_name_eq_spec, rfl, by decide, by decide, by decide, by decide⟩

/-- C3: `classify_loss_quality` returns "N/A" unless the bucket is
exactly "loss" (case-sensitive); for the loss bucket it returns
"Quick Loss" below 15 moves, "Standard Loss" from 15 up to but excluding
30, and "Well-Fought Loss" from 30 on; boundary move counts 14/15/29/30
land in Quick/Standard/Standard/Well-Fought. -/
theorem c3_loss_quality :
    (∀ (folder : String) (mc : Int), folder ≠ "loss" → classify_loss_quality folder mc = "N/A")
    ∧ (∀ mc : Int, mc < 15 → classify_loss_quality "loss" mc = "Quick Loss")
    ∧ (∀ mc : Int, 15 ≤ mc → mc < 30 → classify_loss_quality "loss" mc = "Standard Loss")
    ∧ (∀ mc : Int, 30 ≤ mc → classify_loss_quality "loss" mc = "Well-Fought Loss")
    ∧ classify_loss_quality "loss" 14 = "Quick Loss"
    ∧ classify_loss_quality "loss" 15 = "Standard Loss"
    ∧ classify_loss_quality "loss" 29 = "Standard Loss"
    ∧ classify_loss_quality "loss" 30 = "Well-Fought Loss" := by
  refine ⟨?_, ?_, ?_, ?_, by decide, by decide, by decide, by decide⟩
  · intro folder mc h
    unfold classify_loss_quality
    rw [if_pos h]
  · intro mc h
    unfold classify_loss_quality
    rw [if_neg (by simp), if_pos h]
  · intro mc h1 h2
    unfold classify_loss_quality
    rw [if_neg (by simp), if_neg (by omega), if_pos h2]
  · intro mc h
    unfold classify_loss_quality
    rw [if_neg (by simp), if_neg (by omega), if_neg (by omega)]

/-- Witness instantiating C3's conditional parts at concrete inputs. -/
theorem c3_witness :
    classify_loss_quality "win" 50 = "N/A"
    ∧ classify_loss_quality "loss" 7 = "Quick Loss"
    ∧ classify_loss_quality "loss" 20 = "Standard Loss"
    ∧ classify_loss_quality "loss" 41 = "Well-Fought Loss" :=
  ⟨c3_loss_quality.1 "win" 50 (by decide), c3_loss_quality.2.1 7 (by decide),
   c3_loss_quality.2.2.1 20 (by decide) (by decide),
   c3_loss_quality.2.2.2.1 41 (by decide)⟩

/-- C4: `classify_game_length` always returns one of "Quick", "Medium",
"Long": "Quick" below 20 moves (negative counts included), "Medium"
from 20 through 40, "Long" above 40; boundary move counts 19/20/40/41
land in Quick/Medium/Medium/Long. -/
theorem c4_game_length :
    (∀ mc : Int, classify_game_length mc = "Quick" ∨ classify_game_length mc = "Medium"
      ∨ classify_game_length mc = "Long")
    ∧ (∀ mc : Int, mc < 20 → classify_game_length mc = "Quick")
    ∧ (∀ mc : Int, 20 ≤ mc → mc ≤ 40 → classify_game_length mc = "Medium")
    ∧ (∀ mc : Int, 40 < mc → classify_game_length mc = "Long")
    ∧ classify_game_length 19 = "Quick" ∧ classify_game_length 20 = "Medium"
    ∧ classify_game_length 40 = "Medium" ∧ classify_game_length 41 = "Long"
    ∧ (∀ mc : Int, mc < 0 → classify_game_length mc = "Quick") := by
  refine ⟨?_, ?_, ?_, ?_, by decide, by decide, by decide, by decide, ?_⟩
  · intro mc
    unfold classify_game_length
    split_ifs <;> simp
  · intro mc h
    unfold classify_game_length
    rw [if_pos h]
  · intro mc h1 h2
    unfold classify_game_length
    rw [if_neg (by omega), if_pos h2]
  · intro mc h
    unfold classify_game_length
    rw [if_neg (by omega), if_neg (by omega)]
  · intro mc h
    unfold classify_game_length
    rw [if_pos (by omega)]

/-- Witness instantiating C4's conditional parts at concrete inputs. -/
theorem c4_witness :
    classify_game_length 5 = "Quick" ∧ classify_game_length 30 = "Medium"
    ∧ classify_game_length 50 = "Long" ∧ classify_game_length (-3) = "Quick" :=
  ⟨c4_game_length.2.1 5 (by decide), c4_game_length.2.2.1 30 (by decide) (by decide),
   c4_game_length.2.2.2.1 50 (by decide),
   c4_game_length.2.2.2.2.2.2.2.2 (-3) (by decide)⟩

/-- The round-trip fixture block of the spec: four tag lines, a blank
line, then one movetext line. -/
def c5block : List (List Char) :=
  ["[White \"bob\"]".toList, "[Black \"alice\"]".toList, "[WhiteElo \"1500\"]".toList,
   "[BlackElo \"1600\"]".toList, "".toList, "1. e4 e5 2. Nf3 Nc6 3. Bb5 1-0".toList]

/-- C5: processing the fixture block with user identity "bob" yields
color played "White", rating differential +100, move count 3, and length
bucket "Quick". -/
theorem c5_round_trip :
    (analyzeBlock "bob".toList "games" c5block).colorPlayed = "White"
    ∧ (analyzeBlock "bob".toList "games" c5block).ratingDiff = 100
    ∧ (analyzeBlock "bob".toList "games" c5block).moveCount = 3
    ∧ (analyzeBlock "bob".toList "games" c5block).gameLength = "Quick" := by
  refine ⟨by decide, by decide, by decide, by decide⟩

/-- C6: a missing Elo tag defaults to the integer 0 without error; a
parse failure on either Elo makes the differential exactly 0; when both
parse, the differential is the opponent's rating minus the user's own,
as selected by the color played. -/
theorem c6_rating_differential :
    eloVal none = some 0
    ∧ (∀ (s : List Char) (hB : Option (List Char)) (c : String),
        pyIntOpt s = none → deriveRatingDiff (some s) hB c = 0)
    ∧ (∀ (s : List Char) (hW : Option (List Char)) (c : String),
        pyIntOpt s = none → deriveRatingDiff hW (some s) c = 0)
    ∧ (∀ (hW hB : Option (List Char)) (w b : Int),
        eloVal hW = some w → eloVal hB = some b →
        deriveRatingDiff hW hB "White" = b - w
        ∧ ∀ c : String, c ≠ "White" → deriveRatingDiff hW hB c = w - b) := by
  refine ⟨rfl, ?_, ?_, ?_⟩
  · intro s hB c h
    have hw : eloVal (some s) = none := h
    cases hb : eloVal hB <;> simp [deriveRatingDiff, hw, hb]
  · intro s hW c h
    have hb : eloVal (some s) = none := h
    cases hw : eloVal hW <;> simp [deriveRatingDiff, hw, hb]
  · intro hW hB w b hw hb
    constructor
    · simp [deriveRatingDiff, hw, hb]
    · intro c hc
      simp [deriveRatingDiff, hw, hb, hc]

/-- Witness instantiating C6's conditional parts at concrete inputs. -/
theorem c6_witness :
    deriveRatingDiff (some "15x0".toList) (some "1600".toList) "White" = 0
    ∧ deriveRatingDiff (some "1500".toList) (some "16p0".toList) "Black" = 0
    ∧ deriveRatingDiff (some "1500".toList) (some "1600".toList) "White" = 100
    ∧ deriveRatingDiff (some "1500".toList) (some "1600".toList) "Black" = -100 := by
  refine ⟨?_, ?_, ?_, ?_⟩
  · exact c6_rating_differential.2.1 _ _ _ (by decide)
  · exact c6_rating_differential.2.2.1 _ _ _ (by decide)
  · have h := (c6_rating_differential.2.2.2 (some "1500".toList) (some "1600".toList)
      1500 1600 (by decide) (by decide)).1
    simpa using h
  · have h := (c6_rating_differential.2.2.2 (some "1500".toList) (some "1600".toList)
      1500 1600 (by decide) (by decide)).2 "Black" (by decide)
    simpa using h

/-- C8: the termination classifier always returns one of the ten
categories; absent or empty input yields "Unknown"; otherwise it behaves
as the spec's case-insensitive substring scan of the keyword priority
list with the first match winning (`specTermination`), and "Other" is
returned when no keyword matches. -/
theorem c8_termination_contract :
    (∀ t, classify_termination t = "Unknown" ∨ classify_termination t = "Checkmate"
      ∨ classify_termination t = "Resignation" ∨ classify_termination t = "Timeout"
      ∨ classify_termination t = "Abandoned" ∨ classify_termination t = "Draw by Agreement"
      ∨ classify_termination t = "Draw by Repetition" ∨ classify_termination t = "Stalemate"
      ∨ classify_termination t = "Insufficient Material" ∨ classify_termination t = "Other")
    ∧ classify_termination none = "Unknown"
    ∧ classify_termination (some []) = "Unknown"
    ∧ (∀ t, classify_termination t = specTermination t)
    ∧ (∀ s : List Char, s ≠ [] → firstKeyword (toLowerL s) termKeywords = none →
        classify_termination (some s) = "Other") := by
  refine ⟨?_, rfl, by decide, classify_termination_eq_spec, ?_⟩
  · intro t
    cases t with
    | none => exact Or.inl rfl
    | some s =>
      by_cases h0 : s = []
      · subst h0; exact Or.inl (by decide)
      · simp only [classify_termination]
        rw [if_neg h0]
        split_ifs <;> simp
  · intro s h0 hkw
    rw [classify_termination_eq_spec]
    simp only [specTermination]
    rw [if_neg h0, hkw]

/-- Witness instantiating C8's conditional parts at a concrete input. -/
theorem c8_witness :
    classify_termination (some "adjudication".toList) = "Other" :=
  c8_termination_contract.2.2.2.2 "adjudication".toList (by decide) (by decide)

/-- A non-blank line moves neither `in_moves` nor the movetext buffer
while `in_moves` is still false. -/
theorem stepLine_nonblank_skip {st : PState} {l : List Char}
    (hl : strip l ≠ []) (h : st.inMoves = false) :
    (stepLine st l).inMoves = false ∧ (stepLine st l).movesText = st.movesText := by
  unfold stepLine
  by_cases hbr : bracketShaped (strip l) = true
  · rw [if_pos hbr]
    cases tagMatch (strip l) with
    | none => exact ⟨h, rfl⟩
    | some kv => obtain ⟨k, v⟩ := kv; exact ⟨h, rfl⟩
  · rw [if_neg hbr, if_neg hl, if_neg (by simp [h])]
    exact ⟨h, rfl⟩

/-- Over a block with no blank line, the loop never enters movetext mode
and the movetext buffer never changes. -/
theorem foldl_no_blank (block : List (List Char)) :
    ∀ st : PState, st.inMoves = false → (∀ l ∈ block, strip l ≠ []) →
    (block.foldl stepLine st).inMoves = false
    ∧ (block.foldl stepLine st).movesText = st.movesText := by
  induction block with
  | nil => intro st h _; exact ⟨h, rfl⟩
  | cons l rest ih =>
    intro st h hb
    have hl : strip l ≠ [] := hb l (by simp)
    have hstep := stepLine_nonblank_skip hl h
    simp only [List.foldl_cons]
    have := ih (stepLine st l) hstep.1 (fun x hx => hb x (by simp [hx]))
    exact ⟨this.1, this.2.trans hstep.2⟩

/-- Overwriting an existing key in place keeps it findable with the new
value. -/
theorem find?_map_overwrite (hs : List (List Char × List Char)) (k v : List Char)
    (hany : hs.any (fun p => p.1 = k) = true) :
    (hs.map (fun p => if p.1 = k then (k, v) else p)).find? (fun p => p.1 = k)
      = some (k, v) := by
  induction hs with
  | nil => simp at hany
  | cons a t ih =>
    by_cases h : a.1 = k
    · simp [List.find?, h]
    · have hany2 : t.any (fun p => p.1 = k) = true := by
        simp only [List.any_cons, Bool.or_eq_true, decide_eq_true_eq] at hany
        rcases hany with h1 | h2
        · exact absurd h1 h
        · simpa using h2
      simp [List.find?, h, ih hany2]

/-- Appending a fresh key makes it findable with its value. -/
theorem find?_append_new (hs : List (List Char × List Char)) (k v : List Char)
    (hany : hs.any (fun p => p.1 = k) = false) :
    (hs ++ [(k, v)]).find? (fun p => p.1 = k) = some (k, v) := by
  induction hs with
  | nil => simp [List.find?]
  | cons a t ih =>
    have h : ¬a.1 = k := by
      simp only [List.any_cons, Bool.or_eq_false_iff, decide_eq_false_iff_not] at hany
      exact hany.1
    have hany2 : t.any (fun p => p.1 = k) = false := by
      simp only [List.any_cons, Bool.or_eq_false_iff] at hany
      exact hany.2
    simp [List.find?, h, ih hany2]

/-- Inserting a tag records its value under its key (last write wins). -/
theorem lookupTag_insertTag (hs : List (List Char × List Char)) (k v : List Char) :
    lookupTag (insertTag hs k v) k = some v := by
  unfold insertTag lookupTag
  by_cases hany : hs.any (fun p => p.1 = k) = true
  · rw [if_pos hany, find?_map_overwrite hs k v hany]
    rfl
  · have hf : hs.any (fun p => p.1 = k) = false := by
      cases hb : hs.any (fun p => p.1 = k)
      · rfl
      · exact absurd hb hany
    rw [if_neg hany, find?_append_new hs k v hf]
    rfl

/-- C9: a block with at least one tag line but no blank line accumulates
no movetext and yields MoveCount 0, even when move-number markers occur
in its lines: a non-blank, non-bracketed line is discarded whenever
movetext mode has not been entered, and movetext mode is entered only at
a blank line. -/
theorem c9_no_blank_no_movetext :
    (∀ block : List (List Char), (∀ l ∈ block, strip l ≠ []) →
      (parseLines block).movesText = [] ∧ (parse_pgn block).2 = 0)
    ∧ (∀ (st : PState) (l : List Char), strip l ≠ [] → bracketShaped (strip l) = false →
        st.inMoves = false → stepLine st l = st) := by
  constructor
  · intro block hb
    have h := foldl_no_blank block initPState rfl hb
    refine ⟨h.2, ?_⟩
    show moveCountOf (parseLines block).movesText = 0
    rw [show (parseLines block).movesText = [] from h.2]
    rfl
  · intro st l hl hbr h
    unfold stepLine
    rw [if_neg (by simp [hbr]), if_neg hl, if_neg (by simp [h])]

/-- Witness instantiating C9 on a concrete block: a tag line directly
followed by a movetext-looking line (no blank line) parses to
MoveCount 0, and a movetext-looking line is dropped outside movetext
mode. -/
theorem c9_witness :
    (parse_pgn ["[White \"bob\"]".toList, "1. e4 e5 2. d4 d5".toList]).2 = 0
    ∧ stepLine initPState "1. e4 e5 2. d4 d5".toList = initPState := by
  constructor
  · exact (c9_no_blank_no_movetext.1 ["[White \"bob\"]".toList, "1. e4 e5 2. d4 d5".toList]
      (by decide)).2
  · exact c9_no_blank_no_movetext.2 initPState "1. e4 e5 2. d4 d5".toList
      (by decide) (by decide) rfl

/-- C10: a line whose stripped form is bracket-shaped is always treated
as a tag candidate, even after movetext accumulation has started: it is
never appended to the movetext buffer, and when it matches the tag-pair
pattern it is recorded in the mapping, overwriting any earlier value for
the same key. -/
theorem c10_bracket_lines :
    ∀ (st : PState) (l : List Char), bracketShaped (strip l) = true →
      (stepLine st l).movesText = st.movesText
      ∧ ∀ k v, tagMatch (strip l) = some (k, v) →
          (stepLine st l).headers = insertTag st.headers k v
          ∧ lookupTag (insertTag st.headers k v) k = some v := by
  intro st l hbr
  constructor
  · unfold stepLine
    rw [if_pos hbr]
    cases tagMatch (strip l) with
    | none => rfl
    | some kv => obtain ⟨k, v⟩ := kv; rfl
  · intro k v htm
    refine ⟨?_, lookupTag_insertTag st.headers k v⟩
    unfold stepLine
    rw [if_pos hbr, htm]

/-- Witness instantiating C10 at a concrete mid-movetext state with an
already-present key. -/
theorem c10_witness :
    (stepLine ⟨[("White".toList, "old".toList)], " 1. e4".toList, true⟩
        "[White \"new\"]".toList).movesText = " 1. e4".toList
    ∧ (stepLine ⟨[("White".toList, "old".toList)], " 1. e4".toList, true⟩
        "[White \"new\"]".toList).headers
      = insertTag [("White".toList, "old".toList)] "White".toList "new".toList
    ∧ lookupTag (insertTag [("White".toList, "old".toList)] "White".toList "new".toList)
        "White".toList = some "new".toList := by
  have h := c10_bracket_lines ⟨[("White".toList, "old".toList)], " 1. e4".toList, true⟩
    "[White \"new\"]".toList (by decide)
  exact ⟨h.1, (h.2 "White".toList "new".toList (by decide)).1,
    (h.2 "White".toList "new".toList (by decide)).2⟩

/-! ## Spec reading of the move-count derivation (for C7) -/

/-- Marker test at one position, for the spec reading of MoveCount: a
(maximal) run of digits starts here — `prevDigit` records whether the
character before this position is a digit, so a run's interior never
restarts a marker — and the run is immediately followed by a period and
a whitespace character; on success, the integer value of the run. -/
def markerHere (prevDigit : Bool) : List Char → Option Nat
  | [] => none
  | c :: rest =>
    if c.isDigit && !prevDigit then
      match (c :: rest).dropWhile Char.isDigit with
      | '.' :: w :: _ =>
        if pySpace w then some (digitsVal ((c :: rest).takeWhile Char.isDigit)) else none
      | _ => none
    else none

/-- Whether the character before the current scan position (if any) is a
digit. -/
def prevDigitFlag : Option Char → Bool
  | some p => p.isDigit
  | none => false

/-- Spec reading of "find every occurrence": test every position of the
buffer left to right and collect the marker values in order; `prev` is
the character immediately before the current position, if any. -/
def markersFrom (prev : Option Char) : List Char → List Nat
  | [] => []
  | c :: rest =>
    (markerHere (prevDigitFlag prev) (c :: rest)).toList ++ markersFrom (some c) rest

/-- Spec reading of MoveCount: the integer value of the last marker
occurrence in the movetext buffer, or zero if none exist. -/
def specMoveCount (movesText : List Char) : Nat :=
  ((markersFrom none movesText).getLast?).getD 0

/-- Python whitespace characters are not digits. -/
theorem pySpace_not_digit {w : Char} (h : pySpace w = true) : w.isDigit = false := by
  simp only [pySpace, Bool.or_eq_true, decide_eq_true_eq] at h
  rcases h with ⟨⟨⟨⟨h | h⟩ | h⟩ | h⟩ | h⟩ | h <;> subst h <;> rfl

/-- The head left after `dropWhile` fails the predicate. -/
theorem dropWhile_head_not {α : Type} {p : α → Bool} :
    ∀ (l : List α) (a : α) (t : List α), l.dropWhile p = a :: t → p a = false := by
  intro l
  induction l with
  | nil => intro a t h; simp at h
  | cons x xs ih =>
    intro a t h
    rw [List.dropWhile_cons] at h
    by_cases hx : p x = true
    · rw [if_pos hx] at h
      exact ih a t h
    · rw [if_neg hx] at h
      injection h with h1 _
      subst h1
      cases hpx : p x with
      | false => rfl
      | true => exact absurd hpx hx

/-- A position whose first character is not a digit never matches. -/
theorem scanStep_not_digit {c : Char} {rest : List Char} (h : c.isDigit = false) :
    scanStep c rest = none := by
  unfold scanStep
  rw [if_neg (by simp [h])]

/-- Computing a successful `scanStep` from its ingredients. -/
theorem scanStep_some_intro {c w : Char} {rest t : List Char} (hc : c.isDigit = true)
    (hd : rest.dropWhile Char.isDigit = '.' :: w :: t) (hw : pySpace w = true) :
    scanStep c rest = some (digitsVal (c :: rest.takeWhile Char.isDigit), t) := by
  unfold scanStep
  rw [if_pos hc]
  simp only [hd]
  rw [if_pos hw]

/-- Decomposing a successful `scanStep` into its ingredients. -/
theorem scanStep_some_elim {c : Char} {rest t : List Char} {v : Nat}
    (h : scanStep c rest = some (v, t)) :
    c.isDigit = true ∧ ∃ w, rest.dropWhile Char.isDigit = '.' :: w :: t
      ∧ pySpace w = true ∧ v = digitsVal (c :: rest.takeWhile Char.isDigit) := by
  unfold scanStep at h
  split at h
  · split at h
    · rename_i w2 t2 hd
      split at h
      · rename_i hw
        simp only [Option.some.injEq, Prod.mk.injEq] at h
        obtain ⟨hv, ht⟩ := h
        subst ht
        exact ⟨by assumption, w2, hd, hw, hv.symm⟩
      · exact absurd h (by simp)
    · exact absurd h (by simp)
  · exact absurd h (by simp)

/-- The single-position marker test agrees with the scanner's step when
the previous character is not a digit. -/
theorem markerHere_eq_scanStep (c : Char) (rest : List Char) :
    markerHere false (c :: rest) = (scanStep c rest).map Prod.fst := by
  simp only [markerHere, scanStep]
  by_cases hc : c.isDigit = true
  · rw [List.dropWhile_cons_of_pos hc, List.takeWhile_cons_of_pos hc]
    rw [if_pos (by simp [hc]), if_pos hc]
    split
    · rename_i w2 t2 hd
      by_cases hw : pySpace w2 = true
      · rw [if_pos hw, if_pos hw]
        rfl
      · rw [if_neg hw, if_neg hw]
        rfl
    · rfl
  · have hc2 : c.isDigit = false := by
      cases hb : c.isDigit
      · rfl
      · exact absurd hb hc
    rw [if_neg (by simp [hc2]), if_neg (by simp [hc2])]
    rfl

/-- A position headed by a non-digit contributes no marker and only
shifts the previous-character window. -/
theorem markersFrom_cons_nondigit {a : Char} (h : a.isDigit = false)
    (prev : Option Char) (t : List Char) :
    markersFrom prev (a :: t) = markersFrom (some a) t := by
  have hm : markerHere (prevDigitFlag prev) (a :: t) = none := by
    simp only [markerHere]
    rw [if_neg (by simp [h])]
  simp only [markersFrom, hm, Option.toList_none, List.nil_append]

/-- Markers cannot start inside a digit run: walking over digits with a
digit predecessor collects nothing. -/
theorem markers_digits : ∀ (ds : List Char) (p : Char) (after : List Char),
    (∀ c ∈ ds, c.isDigit = true) → p.isDigit = true →
    (after = [] ∨ ∃ a t2, after = a :: t2 ∧ a.isDigit = false) →
    markersFrom (some p) (ds ++ after) = markersFrom (some p) after := by
  intro ds
  induction ds with
  | nil => intro p after _ _ _; rfl
  | cons d ds2 ih =>
    intro p after hds hp hafter
    have hd : d.isDigit = true := hds d (by simp)
    have step : markersFrom (some p) (d :: (ds2 ++ after))
        = markersFrom (some d) (ds2 ++ after) := by
      have hm : markerHere (prevDigitFlag (some p)) (d :: (ds2 ++ after)) = none := by
        simp only [prevDigitFlag, markerHere]
        rw [if_neg (by simp [hp])]
      simp only [markersFrom, hm, Option.toList_none, List.nil_append]
    rw [List.cons_append, step, ih d after (fun c hc => hds c (by simp [hc])) hd hafter]
    rcases hafter with h | ⟨a, t2, ha, hand⟩
    · subst h; rfl
    · subst ha
      rw [markersFrom_cons_nondigit hand, markersFrom_cons_nondigit hand]

/-- Scanning across a digit run whose following text does not complete a
marker is the same as scanning from the end of the run: every retry
position inside the run fails on the same suffix. -/
theorem scanMoves_digits_fail : ∀ (ds after : List Char),
    (∀ c ∈ ds, c.isDigit = true) →
    (∀ a t, after = a :: t → a.isDigit = false) →
    (∀ w t, after = '.' :: w :: t → pySpace w = false) →
    scanMoves (ds ++ after) = scanMoves after := by
  intro ds
  induction ds with
  | nil => intro after _ _ _; rfl
  | cons d ds2 ih =>
    intro after hds hhead hfail
    have hd : d.isDigit = true := hds d (by simp)
    have hafter_fix : after.dropWhile Char.isDigit = after := by
      cases after with
      | nil => rfl
      | cons a t => exact List.dropWhile_cons_of_neg (by simp [hhead a t rfl])
    have hdrop : (ds2 ++ after).dropWhile Char.isDigit = after := by
      rw [List.dropWhile_append_of_pos (by
        intro a ha
        exact hds a (by simp [ha]))]
      exact hafter_fix
    have hs : scanStep d (ds2 ++ after) = none := by
      cases hstep : scanStep d (ds2 ++ after) with
      | none => rfl
      | some p =>
        obtain ⟨v, t⟩ := p
        obtain ⟨-, w, hd2, hw, -⟩ := scanStep_some_elim hstep
        rw [hdrop] at hd2
        exact absurd hw (by simp [hfail w t hd2])
    rw [List.cons_append, scanMoves_cons_none hs,
      ih after (fun c hc => hds c (by simp [hc])) hhead hfail]

/-- One-position unfolding of the position-by-position collector. -/
theorem markersFrom_cons (prev : Option Char) (c : Char) (rest : List Char) :
    markersFrom prev (c :: rest)
      = (markerHere (prevDigitFlag prev) (c :: rest)).toList
        ++ markersFrom (some c) rest := rfl

/-- A previous character that is not a digit (or absent) clears the
previous-digit flag. -/
theorem prevFlag_false {prev : Option Char}
    (hprev : ∀ p, prev = some p → p.isDigit = false) :
    prevDigitFlag prev = false := by
  cases prev with
  | none => rfl
  | some p => exact hprev p rfl

/-- The positional spec reading and the resuming scanner agree, given
that the character before the scan start (if any) is not a digit. -/
theorem markersFrom_eq_scanMoves_aux : ∀ (n : Nat) (s : List Char) (prev : Option Char),
    s.length ≤ n → (∀ p, prev = some p → p.isDigit = false) →
    markersFrom prev s = scanMoves s := by
  intro n
  induction n with
  | zero =>
    intro s prev h1 _
    have hs : s = [] := List.eq_nil_of_length_eq_zero (Nat.le_zero.mp h1)
    subst hs
    rfl
  | succ n ih =>
    intro s prev h1 hprev
    cases s with
    | nil => rfl
    | cons c rest =>
      simp only [List.length_cons, Nat.succ_le_succ_iff] at h1
      have hunf : markersFrom prev (c :: rest)
          = (markerHere false (c :: rest)).toList ++ markersFrom (some c) rest := by
        rw [markersFrom_cons, prevFlag_false hprev]
      cases hs : scanStep c rest with
      | some pr =>
        obtain ⟨v, t⟩ := pr
        obtain ⟨hc, w, hdrop, hw, hv⟩ := scanStep_some_elim hs
        have hlen := scanStep_tail_len hs
        rw [scanMoves_cons_some hs, hunf, markerHere_eq_scanStep, hs]
        have hsplit : rest = rest.takeWhile Char.isDigit ++ ('.' :: w :: t) := by
          conv_lhs => rw [← List.takeWhile_append_dropWhile Char.isDigit rest]
          rw [hdrop]
        have h3 : markersFrom (some c) rest = markersFrom (some c) ('.' :: w :: t) := by
          conv_lhs => rw [hsplit]
          exact markers_digits _ c _ (fun x hx => List.mem_takeWhile_imp hx) hc
            (Or.inr ⟨'.', w :: t, rfl, by decide⟩)
        rw [h3, markersFrom_cons_nondigit (by decide), markersFrom_cons_nondigit
          (pySpace_not_digit hw)]
        rw [ih t (some w) (by omega) (fun p hp => by
          injection hp with hp
          subst hp
          exact pySpace_not_digit hw)]
        rfl
      | none =>
        rw [scanMoves_cons_none hs, hunf, markerHere_eq_scanStep, hs]
        show markersFrom (some c) rest = scanMoves rest
        by_cases hc : c.isDigit = true
        · have hfail : ∀ w t2, rest.dropWhile Char.isDigit = '.' :: w :: t2 →
              pySpace w = false := by
            intro w t2 hd
            cases hpw : pySpace w with
            | false => rfl
            | true =>
              rw [scanStep_some_intro hc hd hpw] at hs
              exact absurd hs (by simp)
          have hhead : ∀ a t2, rest.dropWhile Char.isDigit = a :: t2 → a.isDigit = false :=
            fun a t2 hd => dropWhile_head_not rest a t2 hd
          have hsplit : rest = rest.takeWhile Char.isDigit ++ rest.dropWhile Char.isDigit :=
            (List.takeWhile_append_dropWhile Char.isDigit rest).symm
          have hshape : rest.dropWhile Char.isDigit = []
              ∨ ∃ a t2, rest.dropWhile Char.isDigit = a :: t2 ∧ a.isDigit = false := by
            cases hd : rest.dropWhile Char.isDigit with
            | nil => exact Or.inl rfl
            | cons a t2 => exact Or.inr ⟨a, t2, rfl, hhead a t2 hd⟩
          have hmark : markersFrom (some c) rest
              = markersFrom (some c) (rest.dropWhile Char.isDigit) := by
            conv_lhs => rw [hsplit]
            exact markers_digits _ c _ (fun x hx => List.mem_takeWhile_imp hx) hc hshape
          have hscan : scanMoves rest = scanMoves (rest.dropWhile Char.isDigit) := by
            conv_lhs => rw [hsplit]
            exact scanMoves_digits_fail _ _ (fun x hx => List.mem_takeWhile_imp hx)
              (fun a t2 hd => hhead a t2 hd) (fun w t2 hd => hfail w t2 hd)
          rw [hmark, hscan]
          have hdroplen := dropWhile_len_le Char.isDigit rest
          cases hd : rest.dropWhile Char.isDigit with
          | nil => rfl
          | cons a t2 =>
            have hand : a.isDigit = false := hhead a t2 hd
            rw [hd] at hdroplen
            simp only [List.length_cons] at hdroplen
            rw [markersFrom_cons_nondigit hand,
              scanMoves_cons_none (scanStep_not_digit hand)]
            exact ih t2 (some a) (by omega) (fun p hp => by
              injection hp with hp
              subst hp
              exact hand)
        · have hc2 : c.isDigit = false := by
            cases hb : c.isDigit
            · rfl
            · exact absurd hb hc
          rw [show markersFrom (some c) rest = scanMoves rest from
            ih rest (some c) h1 (fun p hp => by
              injection hp with hp
              subst hp
              exact hc2)]

/-- The movetext scanner computes exactly the spec's position-by-position
marker list. -/
theorem markersFrom_eq_scanMoves (s : List Char) : markersFrom none s = scanMoves s :=
  markersFrom_eq_scanMoves_aux s.length s none (Nat.le_refl _)
    (fun p hp => by cases hp)

/-- C7: for every RawBlock, the MoveCount of the Record Parser equals
the integer value of the last occurrence in the accumulated movetext
buffer of a maximal run of digits immediately followed by a period and a
whitespace character (zero when no such marker exists), and MoveCount is
never negative. -/
theorem c7_move_count (block : List (List Char)) :
    (parse_pgn block).2 = specMoveCount ((parseLines block).movesText)
    ∧ 0 ≤ ((parse_pgn block).2 : Int) := by
  constructor
  · show moveCountOf (parseLines block).movesText = specMoveCount ((parseLines block).movesText)
    unfold moveCountOf specMoveCount
    rw [markersFrom_eq_scanMoves]
  · exact Int.natCast_nonneg _

end ChessAnalytics
